import Mathlib

/-!
Verification development for `src/main_scraper.py` of the
`unfiltered-record-audit` repository.

The Python source is shallowly embedded: pure string/regex manipulation is
translated to executable Lean functions over `List Char` / `String`;
network I/O (`requests.get` / `safe_get`), HTML parsing (`BeautifulSoup`)
and the clock are oracle parameters (`Option`-valued fetch results,
an `Except` outcome for a call that may raise, an explicit timestamp
string).  Python `float` arithmetic is modelled by exact rationals `ℚ`
(the numeric literals handled by the extractor are short decimal strings).
Python regular-expression semantics (leftmost match, ordered alternation,
greedy/lazy quantifiers with backtracking, `$` also matching before one
final newline) are compiled by hand into the matching functions below,
specialised to the concrete patterns appearing in the source.
-/

namespace MainScraper

/-! ### Character classes (ASCII fragment of the Python classes) -/

/-- Python `\s` / `str.strip` whitespace (ASCII part). -/
def isPySpace (c : Char) : Bool :=
  c = ' ' ∨ c = '\t' ∨ c = '\n' ∨ c = '\r' ∨ c = '\x0b' ∨ c = '\x0c'

/-- Python `\w` word character (ASCII part): letters, digits, underscore. -/
def isWordChar (c : Char) : Bool :=
  c.isAlphanum || c = '_'

/-- Character class `[0-9,]` of the money regex. -/
def isNumChar (c : Char) : Bool :=
  c.isDigit || c = ','

/-- Python `str.strip()` (ASCII whitespace). -/
def pyStrip (l : List Char) : List Char :=
  ((l.dropWhile isPySpace).reverse.dropWhile isPySpace).reverse

/-- Python slicing `text[a:b]` with non-negative clamped bounds. -/
def pySlice (l : List Char) (a b : Nat) : List Char :=
  (l.take b).drop a

/-- Substring containment, Python `needle in hay`. -/
def containsSub (needle hay : List Char) : Bool :=
  hay.tails.any (fun t => needle.isPrefixOf t)

/-- Pythonic `a or b` for string-valued lookups: `None` and `""` are falsy. -/
def pyOrS (a b : Option String) : Option String :=
  match a with
  | some s => if s = "" then b else some s
  | none => b

/-- Pythonic truthiness of an optional string. -/
def truthyS (a : Option String) : Bool :=
  match a with
  | some s => s ≠ ""
  | none => false

/-- First `some` produced by `f` along a list (ordered backtracking). -/
def firstSome {α β : Type} (f : α → Option β) : List α → Option β
  | [] => none
  | a :: t =>
    match f a with
    | some b => some b
    | none => firstSome f t

/-! ### `normalize_bill_number` (src/main_scraper.py lines 58-81)

`cleaned = bill_number.strip().upper().replace(" ", "").replace("..", ".")`
then three regexes are tried in order:
  1. `^(H\.?.?R\.?|HR)(\-)?(\d+)$`   (on `cleaned`)
  2. `^(S\.?|S)(\-)?(\d+)$`          (on `cleaned`)
  3. `^([A-Z]+).*?(\d+)$`            (on `bill_number.replace(".", "")`)
-/

/-- Python `str.replace("..", ".")` semantics: left-to-right, non-overlapping. -/
def replaceDD : List Char → List Char
  | '.' :: '.' :: rest => '.' :: replaceDD rest
  | c :: rest => c :: replaceDD rest
  | [] => []

/-- The cleaning pipeline applied to the raw bill number. -/
def cleanedData (bd : List Char) : List Char :=
  replaceDD (((pyStrip bd).map Char.toUpper).filter (fun c => c ≠ ' '))

/-- Drop one final newline if present: Python `$` also matches just before a
terminal `'\n'`. -/
def dropFinalNL (l : List Char) : List Char :=
  match l.getLast? with
  | some c => if c = '\n' then l.dropLast else l
  | none => l

/-- Pattern `(\-)?`: consume one leading dash if present (if it is consumed but the
rest fails, backtracking to the empty branch also fails on the dash). -/
def dashDrop (l : List Char) : List Char :=
  match l with
  | '-' :: t => t
  | t => t

/-- Match `(\-)?(\d+)$` against the remainder `l`, returning the digit group. -/
def tailDigits (l : List Char) : Option (List Char) :=
  let core := dropFinalNL (dashDrop l)
  if core ≠ [] ∧ core.all Char.isDigit then some core else none

/-- Pattern `\.?`: candidate remainders, greedy branch first. -/
def dotOpt (l : List Char) : List (List Char) :=
  match l with
  | '.' :: t => [t, '.' :: t]
  | _ => [l]

/-- Pattern `.?` (any char except newline, optional): greedy branch first. -/
def anyOpt (l : List Char) : List (List Char) :=
  match l with
  | c :: t => if c = '\n' then [c :: t] else [t, c :: t]
  | [] => [[]]

/-- Literal `R`. -/
def litR (l : List Char) : List (List Char) :=
  match l with
  | 'R' :: t => [t]
  | _ => []

/-- Regex 1, `^(H\.?.?R\.?|HR)(\-)?(\d+)$`, returning the digit group. -/
def matchHR (cleaned : List Char) : Option (List Char) :=
  match cleaned with
  | 'H' :: t =>
    firstSome tailDigits
      (((((dotOpt t).flatMap anyOpt).flatMap litR).flatMap dotOpt) ++ litR t)
  | _ => none

/-- Regex 2, `^(S\.?|S)(\-)?(\d+)$`, returning the digit group. -/
def matchS (cleaned : List Char) : Option (List Char) :=
  match cleaned with
  | 'S' :: t => firstSome tailDigits (dotOpt t ++ [t])
  | _ => none

/-- Regex 3, `^([A-Z]+).*?(\d+)$` (where `.` does not cross a newline and the
lazy `.*?` makes group 2 the maximal terminal digit run).  Returns the
uppercase group and the digit group. -/
def fallbackMatch (l : List Char) : Option (List Char × List Char) :=
  let P := l.takeWhile Char.isUpper
  if P = [] then none else
  let core := dropFinalNL (l.dropWhile Char.isUpper)
  let D := (core.reverse.takeWhile Char.isDigit).reverse
  if D = [] then none else
  let M := core.take (core.length - D.length)
  if M.contains '\n' then none else some (P, D)

/-- Model of `normalize_bill_number` (lines 58-81).  The only falsy `str` is `""`. -/
def normalize_bill_number (bill_number : String) : Option (String × String) :=
  if bill_number = "" then none else
  let cleaned := cleanedData bill_number.data
  match matchHR cleaned with
  | some d => some ("hr", String.mk d)
  | none =>
    match matchS cleaned with
    | some d => some ("s", String.mk d)
    | none =>
      match fallbackMatch (bill_number.data.filter (fun c => c ≠ '.')) with
      | some (P, D) =>
        if (("HR").data.isPrefixOf P || ("H").data.isPrefixOf P) then
          some ("hr", String.mk D)
        else if ("S").data.isPrefixOf P then some ("s", String.mk D)
        else none
      | none => none

/-! ### `construct_cbo_url` (lines 83-87)

The source returns
`f"https://www.cbo.gov/cost-estimates/{{norm['chamber']}}/{{norm['number']}}"`.
In a Python f-string `{{` and `}}` are escapes for literal braces, so this
f-string contains no replacement field at all: it evaluates to the constant
text below (with literal braces), for every successfully normalized bill. -/

/-- The constant string the doubled-brace f-string of line 87 evaluates to. -/
def cboUrlText : String :=
  "https://www.cbo.gov/cost-estimates/\x7bnorm[\x27chamber\x27]\x7d/\x7bnorm[\x27number\x27]\x7d"

/-- Model of `construct_cbo_url` (lines 83-87). -/
def construct_cbo_url (bill_number : String) : Option String :=
  match normalize_bill_number bill_number with
  | none => none
  | some _ => some cboUrlText

/-! ### `find_gao_reports` (lines 173-192)

`safe_get` and `BeautifulSoup` are external: the fetched-and-parsed result
page is an oracle `Option (List Anchor)` (`none` = transport failure, the
list = the elements of `soup.select("h3 a")` in document order, each with
its optional `href` attribute and stripped text).  The search URL built on
line 179 is another doubled-brace f-string, hence a constant. -/

/-- One `<a>` element from `soup.select("h3 a")`. -/
structure Anchor where
  href : Option String
  titleText : String
deriving DecidableEq

/-- A `{"title": ..., "url": ...}` result (spec `ReportRef`). -/
structure Report where
  title : String
  url : String
deriving DecidableEq

/-- Line 178: `query = bill_number.replace(" ", "+")`. -/
def gaoQuery (bill_number : String) : String :=
  String.mk (bill_number.data.map (fun c => if c = ' ' then '+' else c))

/-- Line 179 `search_url`: the doubled braces make it a constant. -/
def gao_search_url (bill_number : String) : String :=
  let _query := gaoQuery bill_number
  "https://www.gao.gov/search?query=\x7bquery\x7d"

/-- Line 189: `href_full = href if href.startswith("http") else "https://www.gao.gov" + href`. -/
def gaoHrefFull (href : String) : String :=
  if href.startsWith ("http") then href else ("https://www.gao.gov") ++ href

/-- Model of `find_gao_reports` (lines 173-192): on transport failure the empty list;
otherwise the first 10 anchors, skipping any with a falsy (missing or empty)
`href`. -/
def find_gao_reports (page : Option (List Anchor)) : List Report :=
  match page with
  | none => []
  | some anchors =>
    (anchors.take 10).filterMap (fun a =>
      match a.href with
      | none => none
      | some h => if h = "" then none else some ⟨a.titleText, gaoHrefFull h⟩)

/-! ### `save_record` file naming (lines 332-340)

`filename = f"record_{{safe_name}}_{{ts}}.json"` again has only doubled
braces, so every record is written under the same constant file name;
the sanitized `safe_name` and the timestamp `ts` are computed (lines
334-335) but never interpolated. -/

/-- Line 335 `safe_name`: sanitized bill number, `/` and spaces to `_`. -/
def save_safe_name (bill_number : Option String) : String :=
  String.mk (((pyOrS bill_number (some ("unknown"))).getD "").data.map
    (fun c => if c = '/' then '_' else if c = ' ' then '_' else c))

/-- The file name `save_record` uses (line 336): constant, whatever the
record and timestamp. -/
def save_record_filename (bill_number : Option String) (ts : String) : String :=
  let _safe_name := save_safe_name bill_number
  let _ts := ts
  "record_\x7bsafe_name\x7d_\x7bts\x7d.json"

/-! ### `extract_cbo_score_and_groups` (lines 99-171)

`BeautifulSoup(html).get_text(separator="\n")` is external markup stripping;
the model takes its output (plain text) as the input.  The blank-line
collapse `re.sub(r"\n\s+\n", "\n\n", text)` and everything after it are
modelled faithfully. -/

/-- Largest index of a newline in `w`. -/
def lastNL (w : List Char) : Option Nat :=
  match w.reverse.findIdx? (fun c => c = '\n') with
  | some j => some (w.length - 1 - j)
  | none => none

/-- Model of `re.sub(r"\n\s+\n", "\n\n", text)` (line 110): at each `'\n'`, with `W`
the maximal whitespace run after it, the greedy-backtracking match ends at
the last `'\n'` of `W` provided at least one `\s` precedes it.  Structural
recursion on a fuel that counts remaining characters; every step consumes
at least one character, so the initial fuel `l.length` never runs out. -/
def collapseBlankF : Nat → List Char → List Char
  | 0, l => l
  | _ + 1, [] => []
  | fuel + 1, '\n' :: t =>
    let W := t.takeWhile isPySpace
    (match lastNL W with
     | some k =>
       if 1 ≤ k then '\n' :: '\n' :: collapseBlankF fuel (t.drop (k + 1))
       else '\n' :: collapseBlankF fuel t
     | none => '\n' :: collapseBlankF fuel t)
  | fuel + 1, c :: t => c :: collapseBlankF fuel t

/-- The blank-line collapse of line 110. -/
def collapseBlank (l : List Char) : List Char :=
  collapseBlankF l.length l

/-- The optional currency marker `(\$|USD)?` (case-insensitive), returning
consumed length and remainder. -/
def moneyMarker : List Char → Nat × List Char
  | '$' :: t => (1, t)
  | a :: b :: c :: t =>
    if a.toLower = 'u' ∧ b.toLower = 's' ∧ c.toLower = 'd' then (3, t)
    else (0, a :: b :: c :: t)
  | l => (0, l)

/-- Case-insensitive literal word match; returns the matched text (source
case) and the remainder. -/
def ciPrefix : List Char → List Char → Option (List Char × List Char)
  | [], l => some ([], l)
  | _ :: _, [] => none
  | c :: ws, x :: xs =>
    if x.toLower = c then (ciPrefix ws xs).map (fun p => (x :: p.1, p.2)) else none

/-- Pattern `(million|billion|thousand)?` (case-insensitive, ordered alternation):
the optional magnitude-word group. -/
def magWord (l : List Char) : Option (List Char) × List Char :=
  match ciPrefix (("million").data) l with
  | some p => (some p.1, p.2)
  | none =>
    match ciPrefix (("billion").data) l with
    | some p => (some p.1, p.2)
    | none =>
      match ciPrefix (("thousand").data) l with
      | some p => (some p.1, p.2)
      | none => (none, l)

/-- Pattern `(?:\.\d+)?`: fractional part (greedy, needs a digit after the dot). -/
def fracPart (l : List Char) : List Char × List Char :=
  match l with
  | '.' :: t =>
    let d := t.takeWhile Char.isDigit
    if d = [] then ([], '.' :: t) else ('.' :: d, t.dropWhile Char.isDigit)
  | _ => ([], l)

/-- A successful match of the money regex at the current position. -/
structure MoneyParse where
  len : Nat
  numRaw : List Char
  mult : Option (List Char)
deriving DecidableEq

/-- Match `(\$|USD)?\s*([0-9,]+(?:\.\d+)?)\s*(million|billion|thousand)?`
(IGNORECASE) anchored at the head of `l`: group 2 (`numRaw`), group 3
(`mult`) and the total matched length (the trailing `\s*` is part of the
match even when the magnitude word is absent). -/
def matchMoneyAt (l : List Char) : Option MoneyParse :=
  let mk := moneyMarker l
  let ws1 := mk.2.takeWhile isPySpace
  let l1 := mk.2.dropWhile isPySpace
  let num := l1.takeWhile isNumChar
  let l2 := l1.dropWhile isNumChar
  if num = [] then none else
  let fr := fracPart l2
  let ws2 := fr.2.takeWhile isPySpace
  let l4 := fr.2.dropWhile isPySpace
  let w := (magWord l4).1
  some ⟨mk.1 + ws1.length + num.length + fr.1.length + ws2.length +
          ((w.map List.length).getD 0),
        num ++ fr.1, w⟩

/-- One finditer match: absolute start and end offsets plus the groups. -/
structure MMatch where
  mstart : Nat
  mend : Nat
  numRaw : List Char
  mult : Option (List Char)
deriving DecidableEq

/-- Model of `money_regex.finditer(text)` (line 115): leftmost, non-overlapping
matches; after a match the scan resumes at its end. `pos` is the absolute
offset of `l` inside the full text.  Structural recursion on a fuel
counting remaining characters; by `matchMoneyAt_one_le` every step
consumes at least one character, so the initial fuel `l.length` never
runs out. -/
def moneyMatchesF : Nat → List Char → Nat → List MMatch
  | 0, _, _ => []
  | _ + 1, [], _ => []
  | fuel + 1, c :: t, pos =>
    match matchMoneyAt (c :: t) with
    | some mp =>
      ⟨pos, pos + mp.len, mp.numRaw, mp.mult⟩ ::
        moneyMatchesF fuel ((c :: t).drop mp.len) (pos + mp.len)
    | none => moneyMatchesF fuel t (pos + 1)

/-- The full finditer match list of the text, offsets from 0. -/
def moneyMatches (l : List Char) (pos : Nat) : List MMatch :=
  moneyMatchesF l.length l pos

/-- Lines 116-117: `excerpt = text[max(0, m.start() - 200) : m.end() + 200]`. -/
def excerptOf (text : List Char) (m : MMatch) : List Char :=
  pySlice text (m.mstart - 200) (m.mend + 200)

/-- The fixed keyword list of line 113. -/
def scoreKeywords : List (List Char) :=
  [("cost").data, ("estimate").data, ("increase").data, ("decrease").data,
   ("deficit").data, ("savings").data, ("budget").data, ("net").data,
   ("spending").data]

/-- Line 118: `any(k in excerpt.lower() for k in keywords)`. -/
def windowQual (text : List Char) (m : MMatch) : Bool :=
  scoreKeywords.any (fun k => containsSub k ((excerptOf text m).map Char.toLower))

/-- The `for m in money_regex.finditer(text): ... break` loop (lines
115-120): the first match whose window contains a keyword. -/
def scanScore (text : List Char) : Option MMatch :=
  (moneyMatches text 0).find? (windowQual text)

/-- Value of a decimal-digit string. -/
def digitsVal (l : List Char) : Nat :=
  l.foldl (fun a c => a * 10 + (c.toNat - 48)) 0

/-- Python `float(...)` on the comma-free numeric literals produced by the
money regex (shape `digits* ( "." digits+ )?`), as an exact rational;
`float("")` raises, giving `none`. -/
def parsePyFloat (l : List Char) : Option ℚ :=
  let ip := l.takeWhile Char.isDigit
  let rest := l.dropWhile Char.isDigit
  match rest with
  | [] => if ip = [] then none else some ((digitsVal ip : ℚ))
  | '.' :: fp =>
    if fp ≠ [] ∧ fp.all Char.isDigit then
      some ((digitsVal ip : ℚ) + (digitsVal fp : ℚ) / ((10 : ℚ)) ^ fp.length)
    else none
  | _ => none

/-- Lines 129-137: `multiplier = m.group(3) or ""`, then multiply by 1e9 /
1e6 / 1e3 when `multiplier.lower()` starts with `"b"` / `"m"` / `"th"`. -/
def applyMult (q : ℚ) (mult : Option (List Char)) : ℚ :=
  let ml := (mult.getD []).map Char.toLower
  if (("b").data).isPrefixOf ml then q * 1000000000
  else if (("m").data).isPrefixOf ml then q * 1000000
  else if (("th").data).isPrefixOf ml then q * 1000
  else q

/-- Lines 122-141: the three score fields
`(score_text, score_value, score_unit)`. -/
def scoreFields (text : List Char) : Option String × Option ℚ × Option String :=
  match scanScore text with
  | none => (none, none, none)
  | some m =>
    let st := String.mk ((pyStrip (excerptOf text m)).take 1000)
    match parsePyFloat (m.numRaw.filter (fun c => c ≠ ',')) with
    | none => (some st, none, none)
    | some q => (some st, some (applyMult q m.mult), some ("dollars"))

/-- Terminal sentence punctuation `[.!?]`. -/
def isSentEnd (c : Char) : Bool :=
  c = '.' ∨ c = '!' ∨ c = '?'

/-- Model of `re.split(r"(?<=[.!?])\s+", text)` (line 159): split at each maximal
whitespace run directly preceded by terminal punctuation.  `acc` holds the
current piece reversed.  Structural recursion on a fuel counting remaining
characters; every step consumes at least one character, so the initial
fuel `l.length` never runs out. -/
def sentSplitF : Nat → List Char → List Char → List (List Char)
  | 0, acc, _ => [acc.reverse]
  | _ + 1, acc, [] => [acc.reverse]
  | fuel + 1, acc, c :: rest =>
    if (match acc with | p :: _ => isSentEnd p | [] => false) && isPySpace c then
      acc.reverse :: sentSplitF fuel [] (rest.dropWhile isPySpace)
    else sentSplitF fuel (c :: acc) rest

/-- The sentence list of the full text. -/
def splitSentences (l : List Char) : List (List Char) :=
  sentSplitF l.length [] l

/-- Boundary `\b` between a last-matched character and the rest of the string. -/
def boundaryAfter (last : Char) (rest : List Char) : Bool :=
  isWordChar last != (match rest with | [] => false | c :: _ => isWordChar c)

/-- Search for a completion `[\d,\.]*\b` after an initial digit `last`:
some (possibly empty) run of digits/commas/dots followed by a word
boundary. -/
def extSearch (last : Char) : List Char → Bool
  | [] => boundaryAfter last []
  | c :: t =>
    boundaryAfter last (c :: t) ||
      (if c.isDigit || c = ',' || c = '.' then extSearch c t else false)

/-- Model of `re.search(r"\b\d[\d,\.]*\b", s)` (line 162): some position holds a
digit preceded by a non-word character (or the string start) from which a
class run reaches a word boundary. -/
def numSearch (prev : Option Char) : List Char → Bool
  | [] => false
  | c :: t =>
    (c.isDigit && (match prev with | none => true | some p => !(isWordChar p))
       && extSearch c t)
      || numSearch (some c) t

/-- Whether a sentence contains a numeric token. -/
def hasNumToken (s : List Char) : Bool :=
  numSearch none s

/-- The demographic/impact keyword list of lines 143-158. -/
def groupKeywords : List (List Char) :=
  [("uninsured").data, ("household").data, ("households").data,
   ("families").data, ("children").data, ("seniors").data, ("elderly").data,
   ("low-income").data, ("benefit").data, ("beneficiaries").data,
   ("workers").data, ("employers").data, ("individuals").data,
   ("people").data]

/-- Line 162: the sentence filter (numeric token and a group keyword). -/
def sentenceQual (s : List Char) : Bool :=
  hasNumToken s && groupKeywords.any (fun k => containsSub k (s.map Char.toLower))

/-- Python `list(dict.fromkeys(x))`: first-seen-order deduplication. -/
def firstSeenAux {α : Type} [DecidableEq α] (seen : List α) : List α → List α
  | [] => []
  | a :: t => if a ∈ seen then firstSeenAux seen t else a :: firstSeenAux (a :: seen) t

/-- First-seen-order deduplication of a list. -/
def firstSeen {α : Type} [DecidableEq α] (l : List α) : List α :=
  firstSeenAux [] l

/-- Lines 159-164: stripped qualifying sentences, deduplicated first-seen,
first 20. -/
def affectedOf (text : List Char) : List String :=
  ((firstSeen (((splitSentences text).filter sentenceQual).map pyStrip)).take 20).map
    String.mk

/-- The extraction result (spec `CostEstimateResult`). -/
structure CostEstimateResult where
  score_text : Option String
  score_value : Option ℚ
  score_unit : Option String
  affected_sentences : List String
deriving DecidableEq

/-- Model of `extract_cbo_score_and_groups` (lines 99-171), from the markup-stripped
text onward. -/
def extract_cbo_score_and_groups (textRaw : List Char) : CostEstimateResult :=
  let text := collapseBlank textRaw
  let sf := scoreFields text
  { score_text := sf.1
    score_value := sf.2.1
    score_unit := sf.2.2
    affected_sentences := affectedOf text }

/-! ### Source adapter (lines 194-295)

`parse_congress_gov_recent` queries the bills API.  The embedding makes the
transport an oracle: `none` models any raised `requests` error or a
non-JSON body (the whole body is inside `try/except`), `some env` the
decoded JSON envelope.  Dict values are modelled by the fields the code
reads; string-typed where the code treats them as strings.  A dict holding
only unmodelled keys is outside the model.  `load_manual_bills` performs
file/environment I/O and JSON decoding only, so the manual list is itself
an oracle value. -/

/-- A bill dict as consumed by `compile_record` and produced by the source
adapter: the keys the code reads, each possibly absent. -/
structure BillStub where
  bill_number : Option String
  bill : Option String
  numberK : Option String
  title : Option String
  status : Option String
  raw_text_url : Option String
deriving DecidableEq

/-- Value under one of the url keys of an API item: a dict (its `text` /
`raw` / `pdf` entries) or a bare string. -/
inductive UrlsVal
  | vdict (textF rawF pdfF : Option String)
  | vstr (s : String)
deriving DecidableEq

/-- Pythonic truthiness of an optional urls value (a represented dict is
non-empty, a string is truthy unless empty). -/
def truthyU : Option UrlsVal → Bool
  | some (UrlsVal.vdict _ _ _) => true
  | some (UrlsVal.vstr s) => s ≠ ""
  | none => false

/-- One entry of a `documents` list: a dict (its `pdf_url` /
`document_url` / `url` entries) or a non-dict value. -/
inductive DocItem
  | ddict (pdf_url document_url url : Option String)
  | dother
deriving DecidableEq

/-- Value under `documents` / `congressdotgov_url`: a list or some other
truthy value (e.g. a bare URL string). -/
inductive DocsVal
  | dlist (docs : List DocItem)
  | dother
deriving DecidableEq

/-- Pythonic truthiness of an optional docs value. -/
def truthyD : Option DocsVal → Bool
  | some (DocsVal.dlist l) => l ≠ []
  | some DocsVal.dother => true
  | none => false

/-- One item of the candidate list, with every key the loop reads. -/
structure ApiItem where
  numberK : Option String
  bill_numberK : Option String
  billNumberK : Option String
  billK : Option String
  titleK : Option String
  official_titleK : Option String
  short_titleK : Option String
  latestActionK : Option String
  statusK : Option String
  latest_actionK : Option String
  urlsK : Option UrlsVal
  urlK : Option UrlsVal
  document_urlK : Option UrlsVal
  documentsK : Option DocsVal
  congressdotgov_urlK : Option DocsVal
deriving DecidableEq

/-- The decoded response envelope: lines 212-218 look for `bills`, then
`results`, then `data.bills`; anything else leaves `candidates` empty. -/
inductive ApiEnvelope
  | bills (items : List ApiItem)
  | results (items : List ApiItem)
  | dataBills (items : List ApiItem)
  | other
deriving DecidableEq

/-- The candidate list of lines 211-218. -/
def candidatesOf : ApiEnvelope → List ApiItem
  | ApiEnvelope.bills items => items
  | ApiEnvelope.results items => items
  | ApiEnvelope.dataBills items => items
  | ApiEnvelope.other => []

/-- Lines 228-232: `urls = item.get("urls") or item.get("url") or
item.get("document_url") or {}`, then `text`/`raw`/`pdf` from a dict or
the string itself. -/
def rawFromUrls (i : ApiItem) : Option String :=
  let urls := if truthyU i.urlsK then i.urlsK
              else if truthyU i.urlK then i.urlK
              else i.document_urlK
  match urls with
  | some (UrlsVal.vdict t r p) => pyOrS t (pyOrS r p)
  | some (UrlsVal.vstr s) => some s
  | none => none

/-- Lines 236-241: the first truthy `pdf_url` / `document_url` / `url` of a
doc dict. -/
def docUrl : DocItem → Option String
  | DocItem.ddict p d u =>
    if truthyS p then p else if truthyS d then d else if truthyS u then u else none
  | DocItem.dother => none

/-- Lines 233-243: fall back to the first document entry producing a truthy
URL (the outer loop breaks as soon as `raw_text_url` is truthy). -/
def rawFromDocs : List DocItem → Option String
  | [] => none
  | d :: t =>
    match docUrl d with
    | some u => if u = "" then rawFromDocs t else some u
    | none => rawFromDocs t

/-- Lines 223-253: one candidate item to the common bill shape; items with
a falsy bill number are dropped (`if not bill_number: continue`). -/
def itemToStub (i : ApiItem) : Option BillStub :=
  let bill_number := pyOrS i.numberK (pyOrS i.bill_numberK (pyOrS i.billNumberK i.billK))
  let title := pyOrS i.titleK (pyOrS i.official_titleK i.short_titleK)
  let status := (pyOrS i.latestActionK (pyOrS i.statusK i.latest_actionK)).getD ""
  let r1 := rawFromUrls i
  let docs := if truthyD i.documentsK then i.documentsK else i.congressdotgov_urlK
  let raw_text_url :=
    if truthyS r1 then r1
    else
      match docs with
      | some (DocsVal.dlist ds) =>
        if ds ≠ [] then (match rawFromDocs ds with
          | some u => some u
          | none => r1)
        else r1
      | _ => r1
  if truthyS bill_number then
    some { bill_number := bill_number, bill := none, numberK := none,
           title := title, status := some status, raw_text_url := raw_text_url }
  else none

/-- Model of `parse_congress_gov_recent` (lines 194-258): no credential means no
request and an empty list; a transport/decoding failure (oracle `none`)
means an empty list; an empty candidate list means an empty list. -/
def parse_congress_gov_recent (key : Option String) (resp : Option ApiEnvelope) :
    List BillStub :=
  if truthyS key = false then [] else
  match resp with
  | none => []
  | some env =>
    let candidates := candidatesOf env
    if candidates = [] then [] else candidates.filterMap itemToStub

/-- Model of `get_recent_bills` (lines 285-295): manual source short-circuits;
otherwise the API strategy, falling back to the manual list when it
produces nothing.  `manualBills` is the oracle value of
`load_manual_bills()` for the current environment. -/
def get_recent_bills (source : String) (key : Option String)
    (resp : Option ApiEnvelope) (manualBills : List BillStub) : List BillStub :=
  if source.toLower = ("manual") then manualBills
  else
    let out := parse_congress_gov_recent key resp
    if out ≠ [] then out else manualBills

/-! ### `compile_record` (lines 297-330)

Oracles: `now` for `_iso_utc_now()`, `cboPage` for
`safe_get(cbo_url)` (`none` = failure, `some text` = `r.text`), and
`gaoResult` for the value or exception of the `find_gao_reports(...)` call
inside the `try` of lines 324-328. -/

/-- The per-bill output record (output artifact schema). -/
structure BillRecord where
  bill_number : Option String
  title : Option String
  status : Option String
  raw_text_url : Option String
  fetched_at : String
  cbo_url : Option String
  cbo : Option CostEstimateResult
  gao_reports : List Report
deriving DecidableEq

/-- Line 298: `bill.get("bill_number") or bill.get("bill") or bill.get("number")`. -/
def resolvedBillNumber (bill : BillStub) : Option String :=
  pyOrS bill.bill_number (pyOrS bill.bill bill.numberK)

/-- Model of `compile_record` (lines 297-330). -/
def compile_record (bill : BillStub) (now : String) (cboPage : Option (List Char))
    (gaoResult : Except Unit (List Report)) : BillRecord :=
  let bill_number := resolvedBillNumber bill
  let cbo_url := if truthyS bill_number then construct_cbo_url (bill_number.getD "")
                 else none
  let cbo := if truthyS cbo_url then
               match cboPage with
               | some page => some (extract_cbo_score_and_groups page)
               | none => none
             else none
  let gao := if truthyS bill_number then
               match gaoResult with
               | Except.ok l => l
               | Except.error _ => []
             else []
  { bill_number := bill_number
    title := bill.title
    status := bill.status
    raw_text_url := bill.raw_text_url
    fetched_at := now
    cbo_url := cbo_url
    cbo := cbo
    gao_reports := gao }

example :
    scanScore (("The cost estimate shows a $1.2 billion increase in spending.").data) =
      some ⟨26, 38, ("1.2").data, some (("billion").data)⟩ := by decide

example :
    (extract_cbo_score_and_groups (("He paid $5 for lunch.").data)).score_value = none := by
  decide

example :
    (extract_cbo_score_and_groups
      (("About 3,000 workers won. About 3,000 workers won.").data)).affected_sentences =
      [("About 3,000 workers won.")] := by decide

example :
    parsePyFloat (("1.2").data) = some ((6 : ℚ) / 5) := by
  have h : parsePyFloat (("1.2").data) =
      some (((digitsVal (("1").data) : ℚ)) +
        ((digitsVal (("2").data) : ℚ)) / ((10 : ℚ)) ^ (("2").data.length)) := rfl
  have d1 : digitsVal (("1").data) = 1 := rfl
  have d2 : digitsVal (("2").data) = 2 := rfl
  rw [h, d1, d2]
  norm_num

example :
    applyMult ((6 : ℚ) / 5) (some (("billion").data)) = 1200000000 := by
  show (6 : ℚ) / 5 * 1000000000 = 1200000000
  norm_num

example : normalize_bill_number ("H.R. 1") = some (("hr"), ("1")) := by decide
example : normalize_bill_number ("S. 2") = some (("s"), ("2")) := by decide
example : normalize_bill_number ("garbage") = none := by decide
example : normalize_bill_number ("HR-273") = some (("hr"), ("273")) := by decide
example : normalize_bill_number ("hres 5") = none := by decide
example : normalize_bill_number ("HRES 5") = some (("hr"), ("5")) := by decide
example : normalize_bill_number ("") = none := by decide

/-! ## Supporting lemmas -/

/-- Every successful anchored money match consumes at least one character,
so the fuel `l.length` given to `moneyMatchesF` never runs out. -/
theorem matchMoneyAt_one_le (l : List Char) (mp : MoneyParse)
    (h : matchMoneyAt l = some mp) : 1 ≤ mp.len := by
  simp only [matchMoneyAt] at h
  split at h
  · exact absurd h (by simp)
  · rename_i hne
    have hlen : 0 < (List.takeWhile isNumChar
        ((moneyMarker l).2.dropWhile isPySpace)).length :=
      List.length_pos.mpr hne
    cases h
    simp only []
    omega

/-- Matches are listed with non-decreasing (in fact increasing) start
offsets, all at least `pos`. -/
theorem moneyMatchesF_start_ge :
    ∀ (fuel : Nat) (l : List Char) (pos : Nat) (m : MMatch),
      m ∈ moneyMatchesF fuel l pos → pos ≤ m.mstart := by
  intro fuel
  induction fuel with
  | zero => intro l pos m h; simp [moneyMatchesF] at h
  | succ f ih =>
    intro l pos m h
    match l with
    | [] => simp [moneyMatchesF] at h
    | c :: t =>
      cases hm : matchMoneyAt (c :: t) with
      | some mp =>
        simp only [moneyMatchesF, hm] at h
        rcases List.mem_cons.mp h with h1 | h1
        · subst h1; exact Nat.le_refl _
        · exact Nat.le_trans (Nat.le_add_right _ _) (ih _ _ _ h1)
      | none =>
        simp only [moneyMatchesF, hm] at h
        exact Nat.le_trans (Nat.le_succ _) (ih _ _ _ h)

/-- The first match accepted by `find?` has the least start offset among
all accepted matches: the scan is position-ordered. -/
theorem moneyMatchesF_find_earliest (q : MMatch → Bool) :
    ∀ (fuel : Nat) (l : List Char) (pos : Nat) (m : MMatch),
      (moneyMatchesF fuel l pos).find? q = some m →
      ∀ m' ∈ moneyMatchesF fuel l pos, q m' = true → m.mstart ≤ m'.mstart := by
  intro fuel
  induction fuel with
  | zero => intro l pos m h; simp [moneyMatchesF] at h
  | succ f ih =>
    intro l pos m hf m' hm' hq
    match l with
    | [] => simp [moneyMatchesF] at hf
    | c :: t =>
      cases hm : matchMoneyAt (c :: t) with
      | some mp =>
        simp only [moneyMatchesF, hm] at hf hm'
        by_cases hqa : q ⟨pos, pos + mp.len, mp.numRaw, mp.mult⟩ = true
        · rw [List.find?_cons_of_pos _ hqa] at hf
          cases hf
          rcases List.mem_cons.mp hm' with h1 | h1
          · subst h1; exact Nat.le_refl _
          · exact Nat.le_trans (Nat.le_add_right _ _)
              (moneyMatchesF_start_ge _ _ _ _ h1)
        · rw [List.find?_cons_of_neg _ hqa] at hf
          rcases List.mem_cons.mp hm' with h1 | h1
          · subst h1; exact absurd hq hqa
          · exact ih _ _ _ hf _ h1 hq
      | none =>
        simp only [moneyMatchesF, hm] at hf hm'
        exact ih _ _ _ hf _ hm' hq

/-! ## Claim C1 (code bug): the CBO URL is a constant

The module docstring (lines 23-24) promises
`H.R. 1 -> https://www.cbo.gov/cost-estimates/hr/1`, but the doubled
braces of line 87 make the f-string a literal: every normalizable bill
gets the same URL, which embeds neither chamber nor number. -/

/-- C1 (code bug evaluated at the failing inputs): two bills with distinct
canonical pairs receive the identical constant CBO URL, while absence still
coincides with normalization failure. -/
theorem construct_cbo_url_constant :
    construct_cbo_url ("H.R. 1") = some cboUrlText ∧
    construct_cbo_url ("S. 2") = some cboUrlText ∧
    normalize_bill_number ("H.R. 1") ≠ normalize_bill_number ("S. 2") ∧
    construct_cbo_url ("garbage") = none := by decide

/-! ## Claim C2 (code bug): the artifact file name is a constant -/

/-- C2 (code bug evaluated at the failing inputs): the sanitized names of
the two records differ, yet `save_record` computes the identical constant
file name (the doubled braces of line 336 never interpolate `safe_name`
or `ts`). -/
theorem save_record_filename_constant :
    save_safe_name (some ("H.R. 1")) ≠ save_safe_name (some ("S. 2")) ∧
    save_record_filename (some ("H.R. 1")) ("20250101T000000Z") =
      save_record_filename (some ("S. 2")) ("20250102T111111Z") ∧
    save_record_filename (some ("H.R. 1")) ("20250101T000000Z") =
      ("record_\x7bsafe_name\x7d_\x7bts\x7d.json") := by decide

/-! ## Claim C6 (code bug): the GAO search URL ignores the bill -/

/-- C6 (code bug evaluated at the failing inputs): the query string is
computed (line 178) but the doubled braces of line 179 never interpolate
it, so the single search request is not keyed on the bill identifier; the
listed degradations (transport failure to `[]`, first 10 links, skipping
missing or empty `href`) do hold of the result parsing. -/
theorem gao_search_url_constant :
    gaoQuery ("H.R. 1") ≠ gaoQuery ("S. 2") ∧
    gao_search_url ("H.R. 1") = gao_search_url ("S. 2") ∧
    gao_search_url ("H.R. 1") = ("https://www.gao.gov/search?query=\x7bquery\x7d") ∧
    find_gao_reports none = [] ∧
    find_gao_reports (some [⟨none, ("skipped")⟩, ⟨some ("/r1"), ("kept")⟩]) =
      [⟨("kept"), ("https://www.gao.gov/r1")⟩] := by decide

/-! ## Claim C7: API-strategy emptiness falls back to the manual list -/

/-- C7: with no credential the structured-API strategy yields `[]`, and
whenever it yields `[]` (for any reason) `get_recent_bills` returns
exactly the manual strategy's output for the same environment — the total
function never fails, its worst outcome is the empty manual list. -/
theorem get_recent_bills_fallback (source : String) (key : Option String)
    (resp : Option ApiEnvelope) (manualBills : List BillStub) :
    (truthyS key = false → parse_congress_gov_recent key resp = []) ∧
    (parse_congress_gov_recent key resp = [] →
      get_recent_bills source key resp manualBills = manualBills) := by
  constructor
  · intro hk
    simp [parse_congress_gov_recent, hk]
  · intro hp
    unfold get_recent_bills
    split
    · rfl
    · simp [hp]

/-- C7 witness: a keyless environment returns the manual list unchanged. -/
theorem get_recent_bills_fallback_witness :
    parse_congress_gov_recent none none = [] ∧
    get_recent_bills ("congress.gov") none none
        [⟨some ("H.R. 1"), none, none, none, none, none⟩] =
      [⟨some ("H.R. 1"), none, none, none, none, none⟩] := by
  have h := get_recent_bills_fallback ("congress.gov") none none
    [⟨some ("H.R. 1"), none, none, none, none, none⟩]
  exact ⟨h.1 rfl, h.2 (h.1 rfl)⟩

/-! ## Claim C8: `compile_record` degrades, never raises -/

/-- C8: an unresolvable bill number still yields a record, with
`cbo_url = none` and `cbo = none`; and when the GAO lookup raises, the
record equals the non-raising record except that `gao_reports` is `[]` —
bill fields, timestamp and CBO fields are preserved. -/
theorem compile_record_degrades (bill : BillStub) (now : String)
    (cboPage : Option (List Char)) (g : List Report) :
    ((∀ s, resolvedBillNumber bill = some s → normalize_bill_number s = none) →
      ∀ gr, (compile_record bill now cboPage gr).cbo_url = none ∧
        (compile_record bill now cboPage gr).cbo = none) ∧
    (compile_record bill now cboPage (Except.error ()) =
      { compile_record bill now cboPage (Except.ok g) with gao_reports := [] }) := by
  constructor
  · intro h gr
    have hurl : (if truthyS (resolvedBillNumber bill) then
        construct_cbo_url ((resolvedBillNumber bill).getD "") else none) = none := by
      cases htr : truthyS (resolvedBillNumber bill)
      · simp [htr]
      · rw [if_pos rfl]
        cases hb : resolvedBillNumber bill with
        | none => rw [hb] at htr; simp [truthyS] at htr
        | some s =>
          rw [Option.getD_some]
          simp [construct_cbo_url, h s hb]
    constructor
    · simp only [compile_record]
      exact hurl
    · simp only [compile_record, hurl]
      simp [truthyS]
  · simp only [compile_record]
    cases htr : truthyS (resolvedBillNumber bill) <;> simp

/-- C8 witness: a bill stub whose number normalizes to nothing, with a
raising GAO lookup, still produces the degraded record. -/
theorem compile_record_degrades_witness :
    (compile_record ⟨some ("garbage"), none, none, none, none, none⟩
        ("2025-01-01T00:00:00Z") none (Except.ok [])).cbo_url = none ∧
    (compile_record ⟨some ("garbage"), none, none, none, none, none⟩
        ("2025-01-01T00:00:00Z") none (Except.ok [])).cbo = none ∧
    compile_record ⟨some ("garbage"), none, none, none, none, none⟩
        ("2025-01-01T00:00:00Z") none (Except.error ()) =
      { compile_record ⟨some ("garbage"), none, none, none, none, none⟩
          ("2025-01-01T00:00:00Z") none
          (Except.ok [⟨("t"), ("u")⟩]) with gao_reports := [] } := by
  have h := compile_record_degrades ⟨some ("garbage"), none, none, none, none, none⟩
    ("2025-01-01T00:00:00Z") none [⟨("t"), ("u")⟩]
  have hn : ∀ s, resolvedBillNumber ⟨some ("garbage"), none, none, none, none, none⟩ =
      some s → normalize_bill_number s = none := by
    intro s hs
    have : ("garbage") = s := by
      simpa [resolvedBillNumber, pyOrS] using hs
    rw [← this]
    decide
  exact ⟨(h.1 hn (Except.ok [])).1, (h.1 hn (Except.ok [])).2, h.2⟩

/-! ## Claim C3: first qualifying monetary match wins -/

/-- C3: the accepted score is the earliest finditer match whose
200-character surrounding window (lowercased) contains one of the fixed
keywords — the scan stops there (least start offset among qualifying
matches, not largest value) — and when no match qualifies all three score
fields are absent. -/
theorem extractor_first_qualifying_wins (textRaw : List Char) :
    (∀ m, scanScore (collapseBlank textRaw) = some m →
      m ∈ moneyMatches (collapseBlank textRaw) 0 ∧
      windowQual (collapseBlank textRaw) m = true ∧
      (∀ m' ∈ moneyMatches (collapseBlank textRaw) 0,
        windowQual (collapseBlank textRaw) m' = true → m.mstart ≤ m'.mstart) ∧
      (extract_cbo_score_and_groups textRaw).score_text =
        some (String.mk ((pyStrip (excerptOf (collapseBlank textRaw) m)).take 1000))) ∧
    (scanScore (collapseBlank textRaw) = none →
      (∀ m' ∈ moneyMatches (collapseBlank textRaw) 0,
        windowQual (collapseBlank textRaw) m' = false) ∧
      (extract_cbo_score_and_groups textRaw).score_text = none ∧
      (extract_cbo_score_and_groups textRaw).score_value = none ∧
      (extract_cbo_score_and_groups textRaw).score_unit = none) := by
  constructor
  · intro m hm
    refine ⟨List.mem_of_find?_eq_some hm, List.find?_some hm, ?_, ?_⟩
    · exact moneyMatchesF_find_earliest _ _ _ _ _ hm
    · cases hp : parsePyFloat (m.numRaw.filter (fun c => c ≠ ',')) <;>
        · simp only [ne_eq, decide_not] at hp
          simp [extract_cbo_score_and_groups, scoreFields, hm, hp]
  · intro hn
    have hall := List.find?_eq_none.mp hn
    refine ⟨fun m' hm' => ?_, ?_, ?_, ?_⟩
    · simpa using hall m' hm'
    · simp [extract_cbo_score_and_groups, scoreFields, hn]
    · simp [extract_cbo_score_and_groups, scoreFields, hn]
    · simp [extract_cbo_score_and_groups, scoreFields, hn]

/-- C3 witness: on `"cost $5"` the single match at offsets 5-7 qualifies
(the window holds `"cost"`) and its stripped window is published. -/
theorem extractor_first_qualifying_wins_witness :
    (extract_cbo_score_and_groups (("cost $5").data)).score_text =
      some ("cost $5") := by
  have h := (extractor_first_qualifying_wins (("cost $5").data)).1
    ⟨5, 7, ("5").data, none⟩ (by decide)
  exact h.2.2.2.trans (by decide)

/-! ## Claim C4: numeric normalization of the accepted token -/

/-- C4: the published value is the parsed comma-free literal with the
magnitude multiplier applied (`applyMult` multiplies by 1e9 / 1e6 / 1e3
exactly when the magnitude word starts with `b` / `m` / `th`
case-insensitively and leaves the value alone otherwise, per lines
129-137); the unit is `"dollars"` exactly when a value was parsed, and a
numeric-parse failure leaves value and unit absent. -/
theorem score_value_normalization (textRaw : List Char) (m : MMatch)
    (h : scanScore (collapseBlank textRaw) = some m) :
    (extract_cbo_score_and_groups textRaw).score_value =
      (parsePyFloat (m.numRaw.filter (fun c => c ≠ ','))).map
        (fun q => applyMult q m.mult) ∧
    ((parsePyFloat (m.numRaw.filter (fun c => c ≠ ','))).isSome = true →
      (extract_cbo_score_and_groups textRaw).score_unit = some ("dollars")) ∧
    (parsePyFloat (m.numRaw.filter (fun c => c ≠ ',')) = none →
      (extract_cbo_score_and_groups textRaw).score_value = none ∧
      (extract_cbo_score_and_groups textRaw).score_unit = none) := by
  refine ⟨?_, ?_, ?_⟩
  · cases hp : parsePyFloat (m.numRaw.filter (fun c => c ≠ ',')) <;>
      · simp only [ne_eq, decide_not] at hp
        simp [extract_cbo_score_and_groups, scoreFields, h, hp]
  · intro hs
    cases hp : parsePyFloat (m.numRaw.filter (fun c => c ≠ ',')) with
    | none => rw [hp] at hs; simp at hs
    | some q =>
      simp only [ne_eq, decide_not] at hp
      simp [extract_cbo_score_and_groups, scoreFields, h, hp]
  · intro hp
    simp only [ne_eq, decide_not] at hp
    constructor <;> simp [extract_cbo_score_and_groups, scoreFields, h, hp]

/-- C4 witness: the spec's concrete instance.  On text containing
`"The cost estimate shows a $1.2 billion increase in spending."` the
result has `score_value = 1 200 000 000` and `score_unit = "dollars"`. -/
theorem score_value_normalization_witness :
    (extract_cbo_score_and_groups
      (("The cost estimate shows a $1.2 billion increase in spending.").data)).score_value =
      some ((1200000000 : ℚ)) ∧
    (extract_cbo_score_and_groups
      (("The cost estimate shows a $1.2 billion increase in spending.").data)).score_unit =
      some ("dollars") := by
  have h := score_value_normalization
    (("The cost estimate shows a $1.2 billion increase in spending.").data)
    ⟨26, 38, ("1.2").data, some (("billion").data)⟩ (by decide)
  have hp : parsePyFloat (((("1.2").data)).filter (fun c => c ≠ ',')) =
      some (((digitsVal (("1").data) : ℚ)) +
        ((digitsVal (("2").data) : ℚ)) / ((10 : ℚ)) ^ (("2").data.length)) := rfl
  constructor
  · rw [h.1, hp]
    have ha : ∀ q : ℚ, applyMult q (some (("billion").data)) = q * 1000000000 :=
      fun q => rfl
    have d1 : digitsVal (("1").data) = 1 := rfl
    have d2 : digitsVal (("2").data) = 2 := rfl
    simp only [Option.map_some, ha, d1, d2]
    norm_num
  · exact h.2.1 (by rw [hp]; rfl)

/-! ## Claim C10: the published excerpt is stripped and capped -/

/-- C10: whenever `score_text` is present it is the whitespace-stripped
excerpt truncated to its first 1000 characters, so its length never
exceeds 1000. -/
theorem score_text_strip_cap (textRaw : List Char) (t : String)
    (h : (extract_cbo_score_and_groups textRaw).score_text = some t) :
    t.length ≤ 1000 ∧
    ∃ m, scanScore (collapseBlank textRaw) = some m ∧
      t = String.mk ((pyStrip (excerptOf (collapseBlank textRaw) m)).take 1000) := by
  cases hs : scanScore (collapseBlank textRaw) with
  | none =>
    rw [show (extract_cbo_score_and_groups textRaw).score_text = none by
      simp [extract_cbo_score_and_groups, scoreFields, hs]] at h
    exact absurd h (by simp)
  | some m =>
    have ht : t = String.mk ((pyStrip (excerptOf (collapseBlank textRaw) m)).take 1000) := by
      cases hp : parsePyFloat (m.numRaw.filter (fun c => c ≠ ',')) <;>
        · simp only [ne_eq, decide_not] at hp
          rw [show (extract_cbo_score_and_groups textRaw).score_text =
              some (String.mk ((pyStrip (excerptOf (collapseBlank textRaw) m)).take 1000)) by
            simp [extract_cbo_score_and_groups, scoreFields, hs, hp]] at h
          exact (Option.some_inj.mp h).symm
    refine ⟨?_, m, rfl, ht⟩
    rw [ht]
    show (List.take 1000 (pyStrip (excerptOf (collapseBlank textRaw) m))).length ≤ 1000
    rw [List.length_take]
    exact inf_le_left

/-- C10 witness: the published excerpt of `"cost $5"` obeys the bound and
is the stripped, capped window of the accepted match. -/
theorem score_text_strip_cap_witness :
    (("cost $5") : String).length ≤ 1000 ∧
    ∃ m, scanScore (collapseBlank (("cost $5").data)) = some m ∧
      ("cost $5") =
        String.mk ((pyStrip (excerptOf (collapseBlank (("cost $5").data)) m)).take 1000) := by
  exact score_text_strip_cap (("cost $5").data) ("cost $5") (by decide)

/-! ## Claim C9: invariants of `affected_sentences` -/

theorem firstSeenAux_sublist {α : Type} [DecidableEq α] :
    ∀ (l seen : List α), (firstSeenAux seen l).Sublist l := by
  intro l
  induction l with
  | nil => intro seen; simp [firstSeenAux]
  | cons a t ih =>
    intro seen
    simp only [firstSeenAux]
    split
    · exact (ih seen).cons a
    · exact (ih (a :: seen)).cons₂ a

theorem mem_firstSeenAux_not_seen {α : Type} [DecidableEq α] :
    ∀ (l seen : List α) (x : α), x ∈ firstSeenAux seen l → x ∉ seen := by
  intro l
  induction l with
  | nil => intro seen x hx; simp [firstSeenAux] at hx
  | cons a t ih =>
    intro seen x hx
    simp only [firstSeenAux] at hx
    split at hx
    · exact ih seen x hx
    · rcases List.mem_cons.mp hx with h1 | h1
      · subst h1; assumption
      · intro hxs
        exact ih (a :: seen) x h1 (List.mem_cons_of_mem a hxs)

theorem firstSeenAux_nodup {α : Type} [DecidableEq α] :
    ∀ (l seen : List α), (firstSeenAux seen l).Nodup := by
  intro l
  induction l with
  | nil => intro seen; simp [firstSeenAux]
  | cons a t ih =>
    intro seen
    simp only [firstSeenAux]
    split
    · exact ih seen
    · refine List.nodup_cons.mpr ⟨?_, ih (a :: seen)⟩
      intro hmem
      exact mem_firstSeenAux_not_seen t (a :: seen) a hmem (List.mem_cons_self a seen)

/-- C9: the affected-sentences list contains no duplicates, has at most 20
entries, is a subsequence (first-seen order preserved) of the stream of
stripped qualifying sentences, and every entry is the stripped form of a
sentence of the text that contains both a numeric token and a
demographic/impact keyword. -/
theorem affected_sentences_invariants (textRaw : List Char) :
    (extract_cbo_score_and_groups textRaw).affected_sentences.Nodup ∧
    (extract_cbo_score_and_groups textRaw).affected_sentences.length ≤ 20 ∧
    (extract_cbo_score_and_groups textRaw).affected_sentences.Sublist
      ((((splitSentences (collapseBlank textRaw)).filter sentenceQual).map pyStrip).map
        String.mk) ∧
    (∀ e ∈ (extract_cbo_score_and_groups textRaw).affected_sentences,
      ∃ s ∈ splitSentences (collapseBlank textRaw),
        sentenceQual s = true ∧ e = String.mk (pyStrip s)) := by
  have hmk : Function.Injective String.mk := fun a b hab => congrArg String.data hab
  have hA : (extract_cbo_score_and_groups textRaw).affected_sentences =
      ((firstSeen ((((splitSentences (collapseBlank textRaw)).filter
        sentenceQual)).map pyStrip)).take 20).map String.mk := by
    simp [extract_cbo_score_and_groups, affectedOf]
  refine ⟨?_, ?_, ?_, ?_⟩
  · rw [hA]
    exact ((List.take_sublist _ _).nodup (firstSeenAux_nodup _ _)).map hmk
  · rw [hA, List.length_map, List.length_take]
    exact inf_le_left
  · rw [hA]
    exact ((List.take_sublist _ _).trans (firstSeenAux_sublist _ _)).map String.mk
  · intro e he
    rw [hA] at he
    rcases List.mem_map.mp he with ⟨x, hx, hxe⟩
    have hx2 : x ∈ (((splitSentences (collapseBlank textRaw)).filter
        sentenceQual)).map pyStrip :=
      (firstSeenAux_sublist _ _).mem ((List.take_sublist _ _).mem hx)
    rcases List.mem_map.mp hx2 with ⟨s, hs, hsx⟩
    exact ⟨s, List.mem_of_mem_filter hs, List.of_mem_filter hs, by rw [← hxe, ← hsx]⟩

/-- C9 witness: on a text with a duplicated qualifying sentence the list is
duplicate-free, short, and its entry is the stripped qualifying sentence. -/
theorem affected_sentences_invariants_witness :
    (extract_cbo_score_and_groups
      (("About 3,000 workers won. About 3,000 workers won.").data)).affected_sentences.Nodup ∧
    (extract_cbo_score_and_groups
      (("About 3,000 workers won. About 3,000 workers won.").data)).affected_sentences.length ≤ 20 ∧
    ∃ s ∈ splitSentences (collapseBlank
        (("About 3,000 workers won. About 3,000 workers won.").data)),
      sentenceQual s = true ∧ ("About 3,000 workers won.") = String.mk (pyStrip s) := by
  have h := affected_sentences_invariants
    (("About 3,000 workers won. About 3,000 workers won.").data)
  exact ⟨h.1, h.2.1, h.2.2.2 ("About 3,000 workers won.") (by decide)⟩

/-! ## Claim C5: supporting character and list lemmas -/

theorem char_toNat_inj {a b : Char} (h : a.toNat = b.toNat) : a = b :=
  Char.eq_of_val_eq (UInt32.ext h)

theorem char_ne_of_toNat_ne {a b : Char} (h : a.toNat ≠ b.toNat) : a ≠ b :=
  fun he => h (congrArg Char.toNat he)

theorem isDigit_toNat {c : Char} (h : c.isDigit = true) :
    48 ≤ c.toNat ∧ c.toNat ≤ 57 := by
  simp only [Char.isDigit, Bool.and_eq_true, decide_eq_true_eq] at h
  constructor
  · simpa [Char.toNat] using UInt32.le_toNat_of_le (by norm_num [UInt32.size]) h.1
  · simpa [Char.toNat] using UInt32.toNat_le_of_le (by norm_num [UInt32.size]) h.2

theorem isUpper_toNat {c : Char} (h : c.isUpper = true) :
    65 ≤ c.toNat ∧ c.toNat ≤ 90 := by
  simp only [Char.isUpper, Bool.and_eq_true, decide_eq_true_eq] at h
  constructor
  · simpa [Char.toNat] using UInt32.le_toNat_of_le (by norm_num [UInt32.size]) h.1
  · simpa [Char.toNat] using UInt32.toNat_le_of_le (by norm_num [UInt32.size]) h.2

theorem toNat_ofNat_small {m : Nat} (h : m < 55296) : (Char.ofNat m).toNat = m := by
  unfold Char.ofNat
  rw [dif_pos (Or.inl h)]
  rfl

theorem isPySpace_eq_false {c : Char} (h : 33 ≤ c.toNat) : isPySpace c = false := by
  simp only [isPySpace, decide_eq_false_iff_not]
  push_neg
  refine ⟨?_, ?_, ?_, ?_, ?_, ?_⟩ <;>
    · intro he
      subst he
      revert h
      decide

theorem isPySpace_toUpper (c : Char) : isPySpace c.toUpper = isPySpace c := by
  simp only [Char.toUpper]
  split
  · rename_i h
    have h1 : (Char.ofNat (c.toNat - 32)).toNat = c.toNat - 32 :=
      toNat_ofNat_small (by omega)
    rw [isPySpace_eq_false (by rw [h1]; omega),
      isPySpace_eq_false (by omega : 33 ≤ c.toNat)]
  · rfl

theorem toUpper_eq_self_of_isDigit {c : Char} (h : c.isDigit = true) :
    c.toUpper = c := by
  have hb := isDigit_toNat h
  simp only [Char.toUpper]
  rw [if_neg (by omega)]

theorem dropWhile_eq_self_of_all {α : Type} {p : α → Bool} :
    ∀ {l : List α}, (∀ x ∈ l, p x = false) → l.dropWhile p = l := by
  intro l h
  cases l with
  | nil => rfl
  | cons a t =>
    rw [List.dropWhile_cons, if_neg]
    simp [h a (List.mem_cons_self a t)]

theorem pyStrip_eq_self {l : List Char} (h : ∀ x ∈ l, isPySpace x = false) :
    pyStrip l = l := by
  unfold pyStrip
  rw [dropWhile_eq_self_of_all h,
    dropWhile_eq_self_of_all (fun x hx => h x (List.mem_reverse.mp hx)),
    List.reverse_reverse]

theorem replaceDD_eq_self : ∀ {l : List Char}, (∀ x ∈ l, x ≠ '.') → replaceDD l = l := by
  intro l
  induction l using replaceDD.induct with
  | case1 rest ih =>
    intro h
    exact absurd rfl (h '.' (List.mem_cons_self _ _))
  | case2 c rest hne ih =>
    intro h
    simp only [replaceDD]
    rw [ih (fun x hx => h x (List.mem_cons_of_mem c hx))]
  | case3 => intro h; rfl

theorem firstSome_some {α β : Type} (f : α → Option β) :
    ∀ (L : List α) (b : β), firstSome f L = some b → ∃ a ∈ L, f a = some b := by
  intro L
  induction L with
  | nil => intro b h; simp [firstSome] at h
  | cons a t ih =>
    intro b h
    cases hf : f a with
    | some b2 =>
      simp only [firstSome, hf] at h
      exact ⟨a, List.mem_cons_self _ _, hf.trans (by rw [h])⟩
    | none =>
      simp only [firstSome, hf] at h
      obtain ⟨x, hx, hfx⟩ := ih b h
      exact ⟨x, List.mem_cons_of_mem a hx, hfx⟩

theorem tailDigits_some {l d : List Char} (h : tailDigits l = some d) :
    d ≠ [] ∧ d.all Char.isDigit = true := by
  simp only [tailDigits] at h
  split at h
  · rename_i hcond
    cases h
    exact hcond
  · exact absurd h (by simp)

theorem tailDigits_of_digits {d : List Char} (hne : d ≠ [])
    (hd : d.all Char.isDigit = true) : tailDigits d = some d := by
  have hall : ∀ x ∈ d, x.isDigit = true := fun x hx => List.all_eq_true.mp hd x hx
  have hl1 : dashDrop d = d := by
    unfold dashDrop
    split
    · have hdig : ('-').isDigit = true := hall '-' (List.mem_cons_self _ _)
      exact absurd hdig (by decide)
    · rfl
  have hnl : dropFinalNL d = d := by
    unfold dropFinalNL
    cases hgl : d.getLast? with
    | none => rfl
    | some c =>
      show (if c = '\n' then d.dropLast else d) = d
      have hc : c ∈ d := List.mem_of_mem_getLast? hgl
      have hb := isDigit_toNat (hall c hc)
      rw [if_neg (char_ne_of_toNat_ne
        (by have h10 : ('\n').toNat = 10 := rfl; omega))]
  simp only [tailDigits, hl1, hnl]
  rw [if_pos ⟨hne, hd⟩]

theorem matchHR_canonical {d : List Char} (hne : d ≠ [])
    (hd : d.all Char.isDigit = true) : matchHR ('H' :: 'R' :: d) = some d := by
  obtain ⟨d0, d', rfl⟩ : ∃ d0 d', d = d0 :: d' := by
    cases d with
    | nil => exact absurd rfl hne
    | cons a t => exact ⟨a, t, rfl⟩
  have h0 := isDigit_toNat (List.all_eq_true.mp hd d0 (List.mem_cons_self _ _))
  have hd0R : d0 ≠ 'R' := char_ne_of_toNat_ne (by have : ('R').toNat = 82 := rfl; omega)
  have hd0dot : d0 ≠ '.' := char_ne_of_toNat_ne (by have : ('.').toNat = 46 := rfl; omega)
  have hlitR : litR (d0 :: d') = [] := by
    unfold litR
    split
    · rename_i t heq
      injection heq with h1 h2
      exact absurd h1 hd0R
    · rfl
  have hdot : dotOpt (d0 :: d') = [d0 :: d'] := by
    unfold dotOpt
    split
    · rename_i t heq
      injection heq with h1 h2
      exact absurd h1 hd0dot
    · rfl
  simp only [matchHR]
  rw [show dotOpt ('R' :: d0 :: d') = ['R' :: d0 :: d'] from rfl]
  simp only [List.flatMap_cons, List.flatMap_nil, List.append_nil]
  rw [show anyOpt ('R' :: d0 :: d') = [d0 :: d', 'R' :: d0 :: d'] from rfl]
  simp only [List.flatMap_cons, List.flatMap_nil, List.append_nil]
  rw [hlitR, show litR ('R' :: d0 :: d') = [d0 :: d'] from rfl]
  simp only [List.nil_append, List.flatMap_cons, List.flatMap_nil, List.append_nil]
  rw [hdot]
  simp only [firstSome, tailDigits_of_digits hne hd]

theorem matchS_canonical {d : List Char} (hne : d ≠ [])
    (hd : d.all Char.isDigit = true) : matchS ('S' :: d) = some d := by
  obtain ⟨d0, d', rfl⟩ : ∃ d0 d', d = d0 :: d' := by
    cases d with
    | nil => exact absurd rfl hne
    | cons a t => exact ⟨a, t, rfl⟩
  have h0 := isDigit_toNat (List.all_eq_true.mp hd d0 (List.mem_cons_self _ _))
  have hd0dot : d0 ≠ '.' := char_ne_of_toNat_ne (by have : ('.').toNat = 46 := rfl; omega)
  have hdot : dotOpt (d0 :: d') = [d0 :: d'] := by
    unfold dotOpt
    split
    · rename_i t heq
      injection heq with h1 h2
      exact absurd h1 hd0dot
    · rfl
  simp only [matchS]
  rw [hdot]
  simp only [List.cons_append, List.nil_append, firstSome,
    tailDigits_of_digits hne hd]

theorem matchHR_some {l d : List Char} (h : matchHR l = some d) :
    d ≠ [] ∧ d.all Char.isDigit = true := by
  unfold matchHR at h
  split at h
  · obtain ⟨a, _, hfa⟩ := firstSome_some tailDigits _ d h
    exact tailDigits_some hfa
  · exact absurd h (by simp)

theorem matchS_some {l d : List Char} (h : matchS l = some d) :
    d ≠ [] ∧ d.all Char.isDigit = true := by
  unfold matchS at h
  split at h
  · obtain ⟨a, _, hfa⟩ := firstSome_some tailDigits _ d h
    exact tailDigits_some hfa
  · exact absurd h (by simp)

theorem fallbackMatch_some {l P D : List Char}
    (h : fallbackMatch l = some (P, D)) :
    P ≠ [] ∧ P.all Char.isUpper = true ∧ D ≠ [] ∧ D.all Char.isDigit = true := by
  simp only [fallbackMatch] at h
  split at h
  · exact absurd h (by simp)
  · rename_i hP
    split at h
    · exact absurd h (by simp)
    · rename_i hD
      split at h
      · exact absurd h (by simp)
      · rename_i hM
        cases h
        refine ⟨hP, ?_, hD, ?_⟩
        · exact List.all_eq_true.mpr (fun x hx => List.mem_takeWhile_imp hx)
        · exact List.all_eq_true.mpr (fun x hx =>
            List.mem_takeWhile_imp (List.mem_reverse.mp hx))

/-- Every successful normalization yields chamber `"hr"` or `"s"` and a
non-empty all-digit number string. -/
theorem normalize_shape (raw : String) (c n : String)
    (h : normalize_bill_number raw = some (c, n)) :
    (c = ("hr") ∨ c = ("s")) ∧ n.data ≠ [] ∧ n.data.all Char.isDigit = true := by
  simp only [normalize_bill_number] at h
  split at h
  · exact absurd h (by simp)
  · cases hHR : matchHR (cleanedData raw.data) with
    | some d =>
      simp only [hHR] at h
      cases h
      exact ⟨Or.inl rfl, (matchHR_some hHR).1, (matchHR_some hHR).2⟩
    | none =>
      simp only [hHR] at h
      cases hS : matchS (cleanedData raw.data) with
      | some d =>
        simp only [hS] at h
        cases h
        exact ⟨Or.inr rfl, (matchS_some hS).1, (matchS_some hS).2⟩
      | none =>
        simp only [hS] at h
        cases hF : fallbackMatch (raw.data.filter (fun c => c ≠ '.')) with
        | some PD =>
          obtain ⟨P, D⟩ := PD
          simp only [hF] at h
          obtain ⟨-, -, hD, hDd⟩ := fallbackMatch_some hF
          split at h
          · cases h
            exact ⟨Or.inl rfl, hD, hDd⟩
          · split at h
            · cases h
              exact ⟨Or.inr rfl, hD, hDd⟩
            · exact absurd h (by simp)
        | none =>
          simp only [hF] at h
          exact absurd h (by simp)

theorem digit_cleaning_facts {d : List Char} (hd : d.all Char.isDigit = true) :
    (∀ x ∈ d, isPySpace x = false) ∧ d.map Char.toUpper = d ∧
    (∀ x ∈ d, x ≠ ' ') ∧ (∀ x ∈ d, x ≠ '.') := by
  have hall : ∀ x ∈ d, x.isDigit = true := fun x hx => List.all_eq_true.mp hd x hx
  refine ⟨?_, ?_, ?_, ?_⟩
  · intro x hx
    exact isPySpace_eq_false (by have := isDigit_toNat (hall x hx); omega)
  · exact (List.map_congr_left
      (fun x hx => toUpper_eq_self_of_isDigit (hall x hx))).trans (List.map_id d)
  · intro x hx
    exact char_ne_of_toNat_ne (by
      have := isDigit_toNat (hall x hx)
      have h32 : (' ').toNat = 32 := rfl
      omega)
  · intro x hx
    exact char_ne_of_toNat_ne (by
      have := isDigit_toNat (hall x hx)
      have h46 : ('.').toNat = 46 := rfl
      omega)

/-- The cleaning pipeline sends the canonical text `"hr" ++ n` (digits `n`)
to `HR` followed by the digits. -/
theorem cleanedData_hr {d : List Char} (hd : d.all Char.isDigit = true) :
    cleanedData ('h' :: 'r' :: d) = 'H' :: 'R' :: d := by
  obtain ⟨hsp, hup, hns, hnd⟩ := digit_cleaning_facts hd
  unfold cleanedData
  rw [pyStrip_eq_self (by
    intro x hx
    rcases List.mem_cons.mp hx with rfl | hx
    · decide
    · rcases List.mem_cons.mp hx with rfl | hx
      · decide
      · exact hsp x hx)]
  rw [show ('h' :: 'r' :: d).map Char.toUpper = 'H' :: 'R' :: d.map Char.toUpper from rfl]
  rw [hup]
  rw [List.filter_eq_self.mpr (by
    intro x hx
    rcases List.mem_cons.mp hx with rfl | hx
    · decide
    · rcases List.mem_cons.mp hx with rfl | hx
      · decide
      · simpa using hns x hx)]
  rw [replaceDD_eq_self (by
    intro x hx
    rcases List.mem_cons.mp hx with rfl | hx
    · decide
    · rcases List.mem_cons.mp hx with rfl | hx
      · decide
      · exact hnd x hx)]

/-- The cleaning pipeline sends the canonical text `"s" ++ n` (digits `n`)
to `S` followed by the digits. -/
theorem cleanedData_s {d : List Char} (hd : d.all Char.isDigit = true) :
    cleanedData ('s' :: d) = 'S' :: d := by
  obtain ⟨hsp, hup, hns, hnd⟩ := digit_cleaning_facts hd
  unfold cleanedData
  rw [pyStrip_eq_self (by
    intro x hx
    rcases List.mem_cons.mp hx with rfl | hx
    · decide
    · exact hsp x hx)]
  rw [show ('s' :: d).map Char.toUpper = 'S' :: d.map Char.toUpper from rfl]
  rw [hup]
  rw [List.filter_eq_self.mpr (by
    intro x hx
    rcases List.mem_cons.mp hx with rfl | hx
    · decide
    · simpa using hns x hx)]
  rw [replaceDD_eq_self (by
    intro x hx
    rcases List.mem_cons.mp hx with rfl | hx
    · decide
    · exact hnd x hx)]

/-- Normalization is idempotent on canonical forms: re-normalizing the
textual form `chamber ++ number` of any successful result returns the same
canonical pair. -/
theorem normalize_canonical_idem (raw c n : String)
    (h : normalize_bill_number raw = some (c, n)) :
    normalize_bill_number (c ++ n) = some (c, n) := by
  obtain ⟨hc, hne, hd⟩ := normalize_shape raw c n h
  rcases hc with rfl | rfl
  · have hdata : (("hr") ++ n).data = 'h' :: 'r' :: n.data := by
      rw [String.data_append]; rfl
    have hne2 : ("hr") ++ n ≠ "" := by
      intro he
      have h2 := congrArg String.data he
      rw [hdata] at h2
      exact absurd h2 (by simp)
    simp only [normalize_bill_number, if_neg hne2, hdata, cleanedData_hr hd,
      matchHR_canonical hne hd]
  · have hdata : (("s") ++ n).data = 's' :: n.data := by
      rw [String.data_append]; rfl
    have hne2 : ("s") ++ n ≠ "" := by
      intro he
      have h2 := congrArg String.data he
      rw [hdata] at h2
      exact absurd h2 (by simp)
    have hHRnone : matchHR ('S' :: n.data) = none := rfl
    simp only [normalize_bill_number, if_neg hne2, hdata, cleanedData_s hd,
      hHRnone, matchS_canonical hne hd]

theorem dropWhile_map_toUpper_congr :
    ∀ {a b : List Char}, a.map Char.toUpper = b.map Char.toUpper →
      (a.dropWhile isPySpace).map Char.toUpper =
        (b.dropWhile isPySpace).map Char.toUpper := by
  intro a
  induction a with
  | nil =>
    intro b h
    have hb : b = [] := List.map_eq_nil_iff.mp h.symm
    subst hb
    rfl
  | cons x xs ih =>
    intro b h
    cases b with
    | nil => simp at h
    | cons y ys =>
      simp only [List.map_cons, List.cons.injEq] at h
      obtain ⟨hxy, hxs⟩ := h
      have hsp : isPySpace x = isPySpace y := by
        rw [← isPySpace_toUpper x, ← isPySpace_toUpper y, hxy]
      rw [List.dropWhile_cons, List.dropWhile_cons, ← hsp]
      cases hx : isPySpace x with
      | true =>
        simp only [if_pos rfl]
        exact ih hxs
      | false =>
        simp only [if_neg Bool.false_ne_true]
        simp [hxy, hxs]

theorem pyStrip_map_toUpper_congr {a b : List Char}
    (h : a.map Char.toUpper = b.map Char.toUpper) :
    (pyStrip a).map Char.toUpper = (pyStrip b).map Char.toUpper := by
  unfold pyStrip
  have h1 := dropWhile_map_toUpper_congr h
  have h2 : (a.dropWhile isPySpace).reverse.map Char.toUpper =
      (b.dropWhile isPySpace).reverse.map Char.toUpper := by
    rw [List.map_reverse, List.map_reverse, h1]
  have h3 := dropWhile_map_toUpper_congr h2
  rw [List.map_reverse, List.map_reverse, h3]

/-- The cleaned form depends only on the input up to letter case. -/
theorem cleanedData_congr {a b : List Char}
    (h : a.map Char.toUpper = b.map Char.toUpper) :
    cleanedData a = cleanedData b := by
  unfold cleanedData
  rw [pyStrip_map_toUpper_congr h]

/-- Changing letter case cannot affect normalization as long as the cleaned
input is resolved by one of the two primary (House/Senate) patterns. -/
theorem normalize_primary_ci (raw raw' : String)
    (he : raw.data.map Char.toUpper = raw'.data.map Char.toUpper)
    (hp : (matchHR (cleanedData raw.data)).isSome = true ∨
      (matchS (cleanedData raw.data)).isSome = true) :
    normalize_bill_number raw = normalize_bill_number raw' := by
  have hcl := cleanedData_congr he
  by_cases hraw : raw = ""
  · subst hraw
    have hr0 : matchHR (cleanedData (("") : String).data) = none := rfl
    have hs0 : matchS (cleanedData (("") : String).data) = none := rfl
    rw [hr0, hs0] at hp
    simp at hp
  · have hraw' : raw' ≠ "" := by
      intro he2
      subst he2
      have hz : raw.data.map Char.toUpper = [] := by simpa using he
      exact hraw (String.ext (List.map_eq_nil_iff.mp hz))
    simp only [normalize_bill_number, if_neg hraw, if_neg hraw', ← hcl]
    rcases hp with hp | hp
    · cases hHR : matchHR (cleanedData raw.data) with
      | none => rw [hHR] at hp; simp at hp
      | some d => rfl
    · cases hHR : matchHR (cleanedData raw.data) with
      | some d => rfl
      | none =>
        cases hS : matchS (cleanedData raw.data) with
        | none => rw [hS] at hp; simp at hp
        | some d => rfl

/-! ## Claim C5 (corrected) -/

/-- C5 counterexample: the claim's case-insensitivity half is false as
stated.  `"HRES5"` is resolved (by the fallback rule) to `(hr, 5)`, but
lowercasing its chamber marker gives `"hres5"`, which the uppercase-only
fallback regex `^([A-Z]+).*?(\d+)$` cannot match: normalization fails. -/
theorem normalize_case_counterexample :
    normalize_bill_number ("HRES5") = some (("hr"), ("5")) ∧
    normalize_bill_number ("hres5") = none := by decide

/-- C5 (amended): `normalize` is idempotent on already-canonical inputs,
and chamber markers are case-insensitive for every input that the two
primary (House/Senate) patterns resolve — the pre-cleaning uppercases the
string, so any case variant normalizes identically; only inputs that fall
through to the uppercase-only fallback rule are case-sensitive. -/
theorem normalize_idem_and_primary_ci :
    (∀ raw c n, normalize_bill_number raw = some (c, n) →
      normalize_bill_number (c ++ n) = some (c, n)) ∧
    (∀ raw raw' : String,
      raw.data.map Char.toUpper = raw'.data.map Char.toUpper →
      ((matchHR (cleanedData raw.data)).isSome = true ∨
        (matchS (cleanedData raw.data)).isSome = true) →
      normalize_bill_number raw = normalize_bill_number raw') :=
  ⟨normalize_canonical_idem, normalize_primary_ci⟩

/-- C5 witness: idempotence on the canonical pair of `"H.R. 1"`, and case
insensitivity between `"H.R. 1"` and `"h.r. 1"` (resolved by the primary
House pattern). -/
theorem normalize_idem_and_primary_ci_witness :
    normalize_bill_number (("hr") ++ ("1")) = some (("hr"), ("1")) ∧
    normalize_bill_number ("H.R. 1") = normalize_bill_number ("h.r. 1") := by
  constructor
  · exact normalize_idem_and_primary_ci.1 ("H.R. 1") ("hr") ("1") (by decide)
  · exact normalize_idem_and_primary_ci.2 ("H.R. 1") ("h.r. 1") (by decide)
      (Or.inl (by decide))

end MainScraper
